import Mathlib

/-!
Verification development for the RMB report extraction engine
(`process_excel` in `app.py`): a shallow embedding of the grid pipeline —
section scanning, client-identity normalization, amount extraction,
credit-limit extraction, aggregation and filtering — together with
theorems settling the specification claims.

Modelling conventions:
* Python strings are `List Char`; `chars` injects Lean string literals.
* Spreadsheet cells are `Cell`: a rational number, a string, or a missing
  value (pandas `NaN`).  Numbers are modelled as `ℚ` (the source works
  with IEEE floats; every constant exercised here is exactly
  representable, and float-specific rounding is outside the model).
* Rational arithmetic is routed through `qadd`/`qmul`/`qdiv`/… which are
  extensionally equal to the Mathlib operations (bridging lemmas below)
  but kernel-computable, so concrete runs can be settled by `decide`.
* `round(x, 2)` / the `:.2f` format use round-half-to-even, as CPython
  and pandas do.
* pandas pads ragged rows with `NaN` to a rectangle; the padding cells
  render as `"nan"`, never contain a section code, a `"rmb"` tag or
  `"credit limit"`, and are dropped by numeric coercion, so the model
  works on the unpadded rows directly.
* pandas `groupby` sorts group keys; the model enumerates groups in
  first-occurrence order instead.  Every property proved here is
  insensitive to the order of the aggregated sequence.
-/

namespace Titus

/-! ### Characters and strings -/

def chars (s : String) : List Char := s.data

def isWs (c : Char) : Bool :=
  c = ' ' || c = '\t' || c = '\n' || c = '\r' || c = '\x0b' || c = '\x0c'

/-- ASCII lowercasing, written as an explicit table so that every fact
about it is settled by case analysis. -/
def lowerCh : Char → Char
  | 'A' => 'a' | 'B' => 'b' | 'C' => 'c' | 'D' => 'd' | 'E' => 'e'
  | 'F' => 'f' | 'G' => 'g' | 'H' => 'h' | 'I' => 'i' | 'J' => 'j'
  | 'K' => 'k' | 'L' => 'l' | 'M' => 'm' | 'N' => 'n' | 'O' => 'o'
  | 'P' => 'p' | 'Q' => 'q' | 'R' => 'r' | 'S' => 's' | 'T' => 't'
  | 'U' => 'u' | 'V' => 'v' | 'W' => 'w' | 'X' => 'x' | 'Y' => 'y'
  | 'Z' => 'z'
  | c => c

def lowerS (l : List Char) : List Char := l.map lowerCh

/-- Python `str.strip()` (leading and trailing whitespace removed). -/
def trimS (l : List Char) : List Char :=
  ((l.dropWhile isWs).reverse.dropWhile isWs).reverse

/-- Substring containment, the meaning of `pat in s` in Python. -/
def hasSub (pat l : List Char) : Prop := pat <:+: l

instance (pat l : List Char) : Decidable (hasSub pat l) :=
  List.decidableInfix pat l

/-- Case-insensitive match of `pat` (given lowercased) at the head of `l`. -/
def matchAt (pat l : List Char) : Bool :=
  decide (lowerS (l.take pat.length) = pat)

/-- Worker for `removeCI`, structurally recursive on the string: a
positive skip counter discards the tail of an occurrence already
matched at an earlier position. -/
def removeCIAux (pat : List Char) : ℕ → List Char → List Char
  | _, [] => []
  | k + 1, _ :: cs => removeCIAux pat k cs
  | 0, c :: cs =>
    if 0 < pat.length ∧ matchAt pat (c :: cs) then
      removeCIAux pat (pat.length - 1) cs
    else
      c :: removeCIAux pat 0 cs

/-- `re.sub` deleting a literal pattern, case-insensitively:
remove every leftmost, non-overlapping, case-insensitive occurrence. -/
def removeCI (pat : List Char) (l : List Char) : List Char := removeCIAux pat 0 l

/-- Worker for `subAlt`, with the same skip-counter scheme. -/
def subAltAux : ℕ → List Char → List Char
  | _, [] => []
  | k + 1, _ :: cs => subAltAux k cs
  | 0, c :: cs =>
    if matchAt (chars "rmb") (c :: cs) then subAltAux 2 cs
    else if matchAt (chars "(rmb)") (c :: cs) then subAltAux 4 cs
    else c :: subAltAux 0 cs

/-- The combined deletion regex of line 132 (alternation of `rmb` and
parenthesized `rmb`, case-insensitive): one
left-to-right pass which at each position first tries `"rmb"`, then
`"(rmb)"`. -/
def subAlt (l : List Char) : List Char := subAltAux 0 l

/-! ### Kernel-computable rational arithmetic -/

def qadd (a b : ℚ) : ℚ := mkRat (a.num * b.den + b.num * a.den) (a.den * b.den)

def qneg (a : ℚ) : ℚ := mkRat (-a.num) a.den

def qsub (a b : ℚ) : ℚ := qadd a (qneg b)

def qmul (a b : ℚ) : ℚ := mkRat (a.num * b.num) (a.den * b.den)

def qinv (a : ℚ) : ℚ :=
  if a.num < 0 then mkRat (-(a.den : ℤ)) a.num.natAbs
  else mkRat (a.den : ℤ) a.num.natAbs

def qdiv (a b : ℚ) : ℚ := qmul a (qinv b)

def qsum (l : List ℚ) : ℚ := l.foldr qadd 0

/-- Round half to even (the CPython `round`, the pandas `.round`). -/
def roundHalfEven (x : ℚ) : ℤ :=
  let f := Rat.floor x
  let r := qsub x (mkRat f 1)
  if r < mkRat 1 2 then f
  else if mkRat 1 2 < r then f + 1
  else if f % 2 = 0 then f else f + 1

/-- `round(x, 2)`. -/
def roundTo2 (x : ℚ) : ℚ := mkRat (roundHalfEven (qmul x (mkRat 100 1))) 100

/-- `f"{x:.2f}"`: fixed two-decimal rendering. -/
def fixed2 (x : ℚ) : List Char :=
  let n := roundHalfEven (qmul x (mkRat 100 1))
  let m := n.natAbs
  (if n < 0 then ['-'] else []) ++ Nat.toDigits 10 (m / 100)
    ++ '.' :: (if m % 100 < 10 then '0' :: Nat.toDigits 10 (m % 100)
               else Nat.toDigits 10 (m % 100))

/-- `EXCHANGE_RATE`: the literal `7.10` at line 164. -/
def exchangeRate : ℚ := mkRat 71 10

/-! ### Cells and grids -/

/-- A spreadsheet cell: number, text, or missing (`NaN`). -/
inductive Cell
  | num (q : ℚ)
  | str (s : List Char)
  | empty
deriving DecidableEq

/-- Python `str(cell)` as the pandas `astype(str)` produces it: `NaN`
renders as `"nan"`; numbers render as decimal digits (with `/` for a
non-integer rational — such cells never matter: digit strings never
contain a section code, `"rmb"` or `"credit limit"`). -/
def pyStr : Cell → List Char
  | .num q =>
      (if q.num < 0 then ['-'] else []) ++ Nat.toDigits 10 q.num.natAbs
        ++ (if q.den = 1 then [] else '/' :: Nat.toDigits 10 q.den)
  | .str s => s
  | .empty => chars "nan"

/-- One cell of the normalized view `df_str` (line 39): stringified,
lowercased, stripped. -/
def normCell (c : Cell) : List Char := trimS (lowerS (pyStr c))

abbrev Row := List Cell

abbrev Grid := List Row

/-- `' '.join(row)` over the normalized view (line 42). -/
def joinedRow (row : Row) : List Char :=
  List.intercalate [' '] (row.map normCell)

/-- `df.dropna` with `how=all` (line 36): remove rows whose cells are all
missing. -/
def dropEmptyRows (g : Grid) : Grid :=
  g.filter fun r => !(r.all fun c => decide (c = Cell.empty))

def receivablesCode : List Char := chars "240601"

def ordersCode : List Char := chars "110301"

/-! ### Section scanner -/

inductive SectionType
  | receivables
  | orders
deriving DecidableEq

/-- Row indices whose joined normalized text contains `code`
(lines 43-48). -/
def markerIdxs (g : Grid) (code : List Char) : List ℕ :=
  (List.range g.length).filter fun i => decide (hasSub code (joinedRow (g.getD i [])))

/-- Does the joined normalized text of a row contain any known section code? -/
def rowHasAnyCode (row : Row) : Prop :=
  hasSub receivablesCode (joinedRow row) ∨ hasSub ordersCode (joinedRow row)

instance (row : Row) : Decidable (rowHasAnyCode row) := by
  unfold rowHasAnyCode; infer_instance

/-- End of the section starting at marker row `start` (lines 57-67):
the first row strictly after `start` containing any section code
(exclusive bound), or the grid length when none exists. -/
def spanEnd (g : Grid) (start : ℕ) : ℕ :=
  match (g.drop (start + 1)).findIdx? (fun r => decide (rowHasAnyCode r)) with
  | some k => start + 1 + k
  | none => g.length

/-- The rows of the section at marker `start`: `df.iloc[start+1:end]`
(line 69). -/
def sectionRows (g : Grid) (start : ℕ) : List Row :=
  (g.drop (start + 1)).take (spanEnd g start - (start + 1))

/-- All section rows in processing order (line 55): every receivables
receivables span first, then every orders span. -/
def sectionRowsAll (g : Grid) : List (SectionType × Row) :=
  ((markerIdxs g receivablesCode).flatMap fun s =>
    (sectionRows g s).map fun r => (SectionType.receivables, r))
  ++ ((markerIdxs g ordersCode).flatMap fun s =>
    (sectionRows g s).map fun r => (SectionType.orders, r))

/-! ### Numeric coercion and amount extraction -/

def isDigitCh (c : Char) : Bool := '0' ≤ c && c ≤ '9'

def digitsVal (l : List Char) : ℕ :=
  l.foldl (fun a c => 10 * a + (c.toNat - 48)) 0

/-- Mantissa without sign or exponent: digits with an optional single
decimal point (at least one digit overall). -/
def parseMantissa (l : List Char) : Option ℚ :=
  let intPart := l.takeWhile isDigitCh
  let rest := l.dropWhile isDigitCh
  match rest with
  | [] => if intPart.isEmpty then none else some (mkRat (digitsVal intPart) 1)
  | '.' :: fr =>
    if fr.all isDigitCh ∧ ¬(intPart.isEmpty ∧ fr.isEmpty) then
      some (qadd (mkRat (digitsVal intPart) 1) (mkRat (digitsVal fr) (10 ^ fr.length)))
    else none
  | _ => none

/-- Strip one optional leading sign; `true` means negative. -/
def splitSign : List Char → Bool × List Char
  | '-' :: t => (true, t)
  | '+' :: t => (false, t)
  | l => (false, l)

/-- Split at the first `e`/`E` (mantissa, optional exponent text). -/
def splitExpMark (l : List Char) : List Char × Option (List Char) :=
  let m := l.takeWhile fun c => !(c = 'e' || c = 'E')
  match l.dropWhile (fun c => !(c = 'e' || c = 'E')) with
  | [] => (m, none)
  | _ :: t => (m, some t)

/-- Numeric coercion of a string, the way `pd.to_numeric` accepts it:
optional surrounding whitespace, optional sign, digits with an optional
decimal point, optional integer exponent.  No thousands separators, no
parentheses, no other foreign characters. -/
def parseNum (s : List Char) : Option ℚ :=
  let t := trimS s
  let (m, e?) := splitExpMark t
  let (neg, m') := splitSign m
  match parseMantissa m' with
  | none => none
  | some v =>
    let signed := if neg then qneg v else v
    match e? with
    | none => some signed
    | some ex =>
      let (eneg, ex') := splitSign ex
      if ¬ex'.isEmpty ∧ ex'.all isDigitCh then
        some (if eneg then qdiv signed (mkRat (10 ^ digitsVal ex') 1)
              else qmul signed (mkRat (10 ^ digitsVal ex') 1))
      else none

/-- `pd.to_numeric` with coercing errors: numbers pass through,
strings are parsed, missing values stay missing. -/
def toNumeric : Cell → Option ℚ
  | .num q => some q
  | .str s => parseNum s
  | .empty => none

/-- Lines 94-102: coerce `row[2:]`, keep non-zero survivors, take the
first. -/
def extractAmount (row : Row) : Option ℚ :=
  (((row.drop 2).filterMap toNumeric).filter fun q => decide (q ≠ 0)).head?

/-! ### Identity classification and the record stream -/

structure ClientRecord where
  client_id : List Char
  client_name : List Char
  code : List Char
  amount : ℚ
  stype : SectionType
deriving DecidableEq

/-- `row[1]` as Python text (missing column ⇒ `NaN` ⇒ `"nan"`). -/
def labelOf (row : Row) : List Char := pyStr (row.getD 1 Cell.empty)

inductive RowOutcome
  | keep (r : ClientRecord)
  | skipRmb
  | skipInvalid
  | skipAmount
deriving DecidableEq

/-- Lines 72-118: the per-row classification of one section row.
The `"rmb"` containment test (line 74) runs on the lowercased,
unstripped label; the empty/`"nan"` test (line 84) runs on the stripped
label; `client_id` strips the `"(rmb)"` tag, `client_name` additionally
strips `"rmb"` (lines 89-90). -/
def classifyRow (t : SectionType) (row : Row) : RowOutcome :=
  if ¬hasSub (chars "rmb") (lowerS (labelOf row)) then .skipRmb
  else
    let info := trimS (labelOf row)
    if info = [] ∨ lowerS info = chars "nan" then .skipInvalid
    else
      match extractAmount row with
      | none => .skipAmount
      | some a =>
        let cid := trimS (removeCI (chars "(rmb)") info)
        .keep
          { client_id := cid
            client_name := trimS (removeCI (chars "rmb") cid)
            code := match t with
              | .receivables => receivablesCode
              | .orders => ordersCode
            amount := a
            stype := t }

def rowOutcomes (g : Grid) : List RowOutcome :=
  (sectionRowsAll g).map fun p => classifyRow p.1 p.2

def records (g : Grid) : List ClientRecord :=
  (rowOutcomes g).filterMap fun o =>
    match o with
    | .keep r => some r
    | _ => none

structure Stats where
  no_rmb : ℕ
  no_amount : ℕ
  invalid_client : ℕ
deriving DecidableEq

/-- The `skipped_rows` counters accumulated over the run (lines 52, 80,
85, 98). -/
def runStats (g : Grid) : Stats :=
  { no_rmb := (rowOutcomes g).countP fun o => decide (o = RowOutcome.skipRmb)
    no_amount := (rowOutcomes g).countP fun o => decide (o = RowOutcome.skipAmount)
    invalid_client := (rowOutcomes g).countP fun o => decide (o = RowOutcome.skipInvalid) }

/-! ### Credit limit extraction (lines 120-142) -/

/-- Line 121: a row qualifies when any normalized cell contains
`"credit limit"`. -/
def isCreditRow (row : Row) : Prop :=
  ∃ c ∈ row, hasSub (chars "credit limit") (normCell c)

instance (row : Row) : Decidable (isCreditRow row) := by
  unfold isCreditRow; infer_instance

def creditRows (g : Grid) : List Row := g.filter fun r => decide (isCreditRow r)

/-- Lines 126-139 for one qualifying row: skip unless the stripped label
contains `"rmb"`; clean the name with the combined one-pass regex; keep
the first non-zero coerced value from `row[2:]` (any sign). -/
def clEntry (row : Row) : Option (List Char × ℚ) :=
  let pn := trimS (labelOf row)
  if ¬hasSub (chars "rmb") (lowerS pn) then none
  else
    match extractAmount row with
    | none => none
    | some a => some (trimS (subAlt pn), a)

/-- The `credit_limits` insertions in grid order. -/
def creditLimits (g : Grid) : List (List Char × ℚ) :=
  (creditRows g).filterMap clEntry

/-- Python dict lookup under insert-overwrite: the last entry for a key
wins. -/
def lookupLast (m : List (List Char × ℚ)) (k : List Char) : Option ℚ :=
  (m.reverse.find? fun p => decide (p.1 = k)).map fun p => p.2

/-! ### Aggregation (lines 150-168) -/

structure AggClient where
  client_id : List Char
  client_name : List Char
  receivables : ℚ
  orders : ℚ
  usd_equivalent : ℚ
  credit_limit_display : List Char
deriving DecidableEq

def keyOf (r : ClientRecord) : List Char × List Char := (r.client_id, r.client_name)

/-- The distinct `(client_id, client_name)` group keys. -/
def aggKeys (rs : List ClientRecord) : List (List Char × List Char) :=
  (rs.map keyOf).dedup

/-- Sum of the amounts of `rs` carrying key `k` and section type `t`
(the groupby-sum-unstack of line 154:
an absent group sums to `0`). -/
def sumFor (rs : List ClientRecord) (k : List Char × List Char)
    (t : SectionType) : ℚ :=
  qsum (((rs.filter fun r => decide (r.stype = t)).filter
    fun r => decide (keyOf r = k)).map fun r => r.amount)

/-- One aggregated client: line 164 computes `usd_equivalent` from the
orders column; lines 167-168 look the credit limit up by `client_name`
and format it, blank when absent or zero. -/
def mkAgg (g : Grid) (k : List Char × List Char) : AggClient :=
  let r := sumFor (records g) k .receivables
  let o := sumFor (records g) k .orders
  { client_id := k.1
    client_name := k.2
    receivables := r
    orders := o
    usd_equivalent := roundTo2 (qdiv o exchangeRate)
    credit_limit_display :=
      match lookupLast (creditLimits g) k.2 with
      | none => []
      | some x => if x = 0 then [] else fixed2 x }

/-- The aggregated clients before filtering. -/
def aggregate (g : Grid) : List AggClient :=
  (aggKeys (records g)).map (mkAgg g)

/-! ### Report filter and pipeline result (lines 144-181) -/

def filterClients (onlyFull : Bool) (cs : List AggClient) : List AggClient :=
  if onlyFull then cs.filter fun c => decide (0 < c.receivables ∧ 0 < c.orders)
  else cs.filter fun c => decide (c.receivables ≠ 0 ∨ c.orders ≠ 0)

def msgBoth : List Char := chars "No clients found with both receivables AND orders"

def msgEither : List Char := chars "No clients found with receivables or orders"

def msgNoEntries : List Char := chars "No valid RMB entries found."

inductive RunResult
  | noEntries (msg : List Char) (debug : Stats)
  | emptyAfterFilter (msg : List Char)
  | ok (clients : List AggClient)
deriving DecidableEq

/-- The whole pipeline on a decoded grid.  `onlyFull` is the
`only_full` query flag (default `true` in the route). -/
def processGrid (g0 : Grid) (onlyFull : Bool) : RunResult :=
  let g := dropEmptyRows g0
  if records g = [] then .noEntries msgNoEntries (runStats g)
  else
    let result := filterClients onlyFull (aggregate g)
    if result = [] then
      .emptyAfterFilter (if onlyFull then msgBoth else msgEither)
    else .ok result

/-! ### Spec-side reference definition

Modelled from the spec: claim C4 describes the numeric coercion as
stripping whitespace, thousands separators, parentheses and every other
character outside the class `[0-9.eE+-]` before parsing.  `specCoerce`
follows those words, for comparison with `toNumeric` (the source uses a
plain `pd.to_numeric`, which cleans nothing). -/

def specNumChar (c : Char) : Bool :=
  isDigitCh c || c = '.' || c = 'e' || c = 'E' || c = '+' || c = '-'

/-- The coercion of a text cell as claim C4 words it: drop every
character outside `[0-9.eE+-]` (hence all whitespace, thousands
separators and parentheses), then parse. -/
def specCoerce (s : List Char) : Option ℚ := parseNum (s.filter specNumChar)

/-! ### Concrete grids used by counterexamples and witnesses -/

/-- A receivables marker followed by a single client row with amount
`50`: the aggregated client has `receivables_total = 50`,
`orders_total = 0`. -/
def exGridA : Grid :=
  [[Cell.str (chars "240601")],
   [Cell.str (chars ""), Cell.str (chars "ClientA (RMB)"), Cell.str (chars ""),
    Cell.num (mkRat 50 1)]]

/-- The credit-limit example row of the spec, together with a section
containing the matching client. -/
def exGridB : Grid :=
  [[Cell.str (chars ""), Cell.str (chars "ClientA RMB Credit Limit"),
    Cell.str (chars ""), Cell.num (mkRat 5000 1)],
   [Cell.str (chars "240601")],
   [Cell.str (chars ""), Cell.str (chars "ClientA (RMB)"), Cell.str (chars ""),
    Cell.num (mkRat 100 1)]]

/-- A credit-limit row whose first surviving amount is negative. -/
def exGridC : Grid :=
  [[Cell.str (chars ""), Cell.str (chars "X rmb credit limit"),
    Cell.str (chars ""), Cell.num (mkRat (-500) 1)]]

/-- A receivables section whose labels nowhere contain `"rmb"`. -/
def exGridD : Grid :=
  [[Cell.str (chars "240601")],
   [Cell.str (chars ""), Cell.str (chars "foo"), Cell.str (chars ""),
    Cell.num (mkRat 5 1)],
   [Cell.str (chars ""), Cell.str (chars "bar")]]

/-- A receivables section containing a whitespace-only label and a
missing label. -/
def exGridE : Grid :=
  [[Cell.str (chars "240601")],
   [Cell.str (chars ""), Cell.str (chars "  ")],
   [Cell.str (chars ""), Cell.empty, Cell.num (mkRat 3 1)]]

/-- Section rows exercising the identity classifier: a label with a
bare `"rmb"` tag, and a label in which deleting `"rmb"` creates a new
`"rmb"` occurrence. -/
def exRowBare : Row :=
  [Cell.str (chars ""), Cell.str (chars "ClientA RMB"), Cell.str (chars ""),
   Cell.num (mkRat 100 1)]

def exRowTricky : Row :=
  [Cell.str (chars ""), Cell.str (chars "rrmbmb"), Cell.str (chars ""),
   Cell.num (mkRat 1 1)]

/-- A row whose only candidate cell holds a thousands separator. -/
def exRowComma : Row :=
  [Cell.str (chars "x"), Cell.str (chars "lbl"), Cell.str (chars "1,000")]

/-- A row with a coercible zero before the first non-zero amount. -/
def exRowZeroFirst : Row :=
  [Cell.str (chars "a"), Cell.str (chars "b"), Cell.str (chars "0"),
   Cell.num (mkRat 7 1)]


/-! ### Bridging the computable rational operations to Mathlib -/

theorem cast_den_ne_zero (a : ℚ) : ((a.den : ℚ)) ≠ 0 := by
  exact_mod_cast a.den_nz

theorem mul_den_cast (a : ℚ) : a * (a.den : ℚ) = (a.num : ℚ) := by
  have h := Rat.num_div_den a
  calc a * (a.den : ℚ) = ((a.num : ℚ) / (a.den : ℚ)) * (a.den : ℚ) := by rw [h]
    _ = (a.num : ℚ) := div_mul_cancel₀ _ (cast_den_ne_zero a)

theorem qadd_eq (a b : ℚ) : qadd a b = a + b := by
  have ha := cast_den_ne_zero a
  have hb := cast_den_ne_zero b
  rw [qadd, Rat.mkRat_eq_div]
  rw [div_eq_iff (by push_cast; exact mul_ne_zero ha hb)]
  push_cast
  rw [← mul_den_cast a, ← mul_den_cast b]
  ring

theorem qneg_eq (a : ℚ) : qneg a = -a := by
  have ha := cast_den_ne_zero a
  rw [qneg, Rat.mkRat_eq_div]
  rw [div_eq_iff ha]
  push_cast
  rw [← mul_den_cast a]
  ring

theorem qmul_eq (a b : ℚ) : qmul a b = a * b := by
  have ha := cast_den_ne_zero a
  have hb := cast_den_ne_zero b
  rw [qmul, Rat.mkRat_eq_div]
  rw [div_eq_iff (by push_cast; exact mul_ne_zero ha hb)]
  push_cast
  rw [← mul_den_cast a, ← mul_den_cast b]
  ring

theorem qsub_eq (a b : ℚ) : qsub a b = a - b := by
  rw [qsub, qadd_eq, qneg_eq, sub_eq_add_neg]

theorem qinv_eq (a : ℚ) : qinv a = a⁻¹ := by
  rcases lt_trichotomy a.num 0 with h | h | h
  · have hnum : (a.num : ℚ) ≠ 0 := by exact_mod_cast h.ne
    have hy : ((a.num.natAbs : ℕ) : ℚ) = -(a.num : ℚ) := by
      rw [Int.cast_natAbs, abs_of_neg h]
      push_cast
      ring
    have hyne : ((a.num.natAbs : ℕ) : ℚ) ≠ 0 := by
      rw [hy]; exact neg_ne_zero.mpr hnum
    rw [qinv, if_pos h, Rat.mkRat_eq_div]
    symm
    apply inv_eq_of_mul_eq_one_right
    rw [← mul_div_assoc, div_eq_one_iff_eq hyne, hy]
    push_cast
    rw [mul_neg, neg_inj]
    exact mul_den_cast a
  · have ha0 : a = 0 := Rat.num_eq_zero.mp h
    subst ha0
    rw [inv_zero]
    decide
  · have hnum : (a.num : ℚ) ≠ 0 := by exact_mod_cast h.ne.symm
    have hy : ((a.num.natAbs : ℕ) : ℚ) = (a.num : ℚ) := by
      rw [Int.cast_natAbs, abs_of_pos h]
    have hyne : ((a.num.natAbs : ℕ) : ℚ) ≠ 0 := by rw [hy]; exact hnum
    rw [qinv, if_neg (by omega), Rat.mkRat_eq_div]
    symm
    apply inv_eq_of_mul_eq_one_right
    rw [← mul_div_assoc, div_eq_one_iff_eq hyne, hy]
    push_cast
    exact mul_den_cast a

theorem qdiv_eq (a b : ℚ) : qdiv a b = a / b := by
  rw [qdiv, qmul_eq, qinv_eq, div_eq_mul_inv]

theorem qsum_eq (l : List ℚ) : qsum l = l.sum := by
  induction l with
  | nil => rfl
  | cons a t ih => simp [qsum, List.foldr_cons, qadd_eq] at ih ⊢; rw [ih]

/-! ### Whitespace, trimming and substring lemmas -/

theorem isWs_lowerCh (c : Char) : isWs (lowerCh c) = isWs c := by
  unfold lowerCh
  split <;> rfl

theorem mem_takeWhile_ws {p : Char → Bool} {l : List Char} {c : Char}
    (h : c ∈ l.takeWhile p) : p c = true :=
  List.mem_takeWhile_imp h

theorem trimS_decomp (l : List Char) :
    ∃ x y, l = x ++ trimS l ++ y ∧ (∀ c ∈ x, isWs c = true) ∧
      (∀ c ∈ y, isWs c = true) := by
  refine ⟨l.takeWhile isWs,
    ((l.dropWhile isWs).reverse.takeWhile isWs).reverse, ?_, ?_, ?_⟩
  · conv_lhs => rw [← List.takeWhile_append_dropWhile isWs l]
    rw [List.append_assoc]
    congr 1
    conv_lhs => rw [← List.reverse_reverse (l.dropWhile isWs),
      ← List.takeWhile_append_dropWhile isWs (l.dropWhile isWs).reverse]
    rw [List.reverse_append]
    rfl
  · intro c hc; exact List.mem_takeWhile_imp hc
  · intro c hc
    rw [List.mem_reverse] at hc
    exact List.mem_takeWhile_imp hc

theorem infix_drop_ws_left {pat m : List Char} :
    ∀ x : List Char, pat <:+: x ++ m → (∀ c ∈ x, isWs c = true) →
      (∀ c ∈ pat, isWs c = false) → pat ≠ [] → pat <:+: m := by
  intro x
  induction x with
  | nil => intro h _ _ _; simpa using h
  | cons a x ih =>
    intro h hws hpat hne
    obtain ⟨s, t, hst⟩ := h
    cases s with
    | nil =>
      cases pat with
      | nil => exact absurd rfl hne
      | cons p ps =>
        simp only [List.nil_append, List.cons_append, List.cons.injEq] at hst
        have hp : isWs p = false := hpat p (List.mem_cons_self _ _)
        have ha : isWs a = true := hws a (List.mem_cons_self _ _)
        rw [← hst.1] at ha
        rw [ha] at hp
        cases hp
    | cons b s =>
      simp only [List.cons_append, List.cons.injEq] at hst
      exact ih ⟨s, t, hst.2⟩ (fun c hc => hws c (List.mem_cons_of_mem a hc))
        hpat hne

theorem infix_drop_ws_right {pat m : List Char}
    (h : pat <:+: m ++ y) (hy : ∀ c ∈ y, isWs c = true)
    (hpat : ∀ c ∈ pat, isWs c = false) (hne : pat ≠ []) : pat <:+: m := by
  have h1 : pat.reverse <:+: y.reverse ++ m.reverse := by
    rw [← List.reverse_append]
    exact List.reverse_infix.mpr h
  have h2 := infix_drop_ws_left y.reverse h1
    (fun c hc => hy c (List.mem_reverse.mp hc))
    (fun c hc => hpat c (List.mem_reverse.mp hc))
    (by simpa using hne)
  exact List.reverse_infix.mp h2

/-- A label whose lowercasing contains `"rmb"` can neither strip to the
empty string nor strip-and-lower to `"nan"`: the two conditions of the
`invalid_client` branch are unreachable once the `"rmb"` test passed. -/
theorem rmb_label_valid (s : List Char)
    (h : hasSub (chars "rmb") (lowerS s)) :
    trimS s ≠ [] ∧ lowerS (trimS s) ≠ chars "nan" := by
  obtain ⟨x, y, hdec, hx, hy⟩ := trimS_decomp s
  have hsplit : lowerS s = lowerS x ++ lowerS (trimS s) ++ lowerS y := by
    conv_lhs => rw [hdec]
    simp [lowerS, List.map_append]
  have hpat : ∀ c ∈ chars "rmb", isWs c = false := by decide
  have hne : chars "rmb" ≠ ([] : List Char) := by decide
  have hmid : chars "rmb" <:+: lowerS (trimS s) := by
    have h1 : chars "rmb" <:+: lowerS x ++ (lowerS (trimS s) ++ lowerS y) := by
      have := h
      unfold hasSub at this
      rw [hsplit, List.append_assoc] at this
      exact this
    have h2 := infix_drop_ws_left (lowerS x) h1
      (by
        intro c hc
        obtain ⟨d, hd, rfl⟩ := List.mem_map.mp hc
        rw [isWs_lowerCh]
        exact hx d hd)
      hpat hne
    exact infix_drop_ws_right h2
      (by
        intro c hc
        obtain ⟨d, hd, rfl⟩ := List.mem_map.mp hc
        rw [isWs_lowerCh]
        exact hy d hd)
      hpat hne
  constructor
  · intro h0
    rw [h0] at hmid
    have := hmid.subset (show 'r' ∈ chars "rmb" by decide)
    simp [lowerS] at this
  · intro h0
    rw [h0] at hmid
    exact absurd hmid (by decide)

/-! ### Section span lemmas -/

theorem findIdx?_some_spec {α : Type} {p : α → Bool} (dflt : α) :
    ∀ (l : List α) (k : ℕ), l.findIdx? p = some k →
      k < l.length ∧ p (l.getD k dflt) = true ∧
        ∀ j, j < k → p (l.getD j dflt) = false := by
  intro l
  induction l with
  | nil => intro k h; rw [List.findIdx?_nil] at h; cases h
  | cons x xs ih =>
    intro k h
    rw [List.findIdx?_cons] at h
    by_cases hp : p x = true
    · rw [if_pos hp] at h
      cases h
      refine ⟨by simp only [List.length_cons]; omega, hp, ?_⟩
      intro j hj
      exact absurd hj (Nat.not_lt_zero j)
    · rw [if_neg hp, List.findIdx?_succ] at h
      cases h2 : xs.findIdx? p with
      | none => rw [h2] at h; cases h
      | some k' =>
        rw [h2] at h
        first
          | simp only [Option.map_some] at h
          | simp only [Option.map_some'] at h
        cases h
        obtain ⟨hlt, hgt, hmin⟩ := ih k' h2
        refine ⟨by simp only [List.length_cons]; omega, hgt, ?_⟩
        intro j hj
        cases j with
        | zero =>
          cases hpx : p x with
          | true => exact absurd hpx hp
          | false => exact hpx
        | succ j' => exact hmin j' (by omega)

theorem spanEnd_spec (g : Grid) (start : ℕ) (h : start < g.length) :
    start ≤ spanEnd g start ∧ spanEnd g start ≤ g.length ∧
      (spanEnd g start < g.length → rowHasAnyCode (g.getD (spanEnd g start) [])) ∧
      ∀ j, start < j → j < spanEnd g start → ¬rowHasAnyCode (g.getD j []) := by
  cases hf : (g.drop (start + 1)).findIdx? (fun r => decide (rowHasAnyCode r)) with
  | none =>
    have he : spanEnd g start = g.length := by unfold spanEnd; rw [hf]
    have hnone := List.findIdx?_eq_none_iff.mp hf
    rw [he]
    refine ⟨h.le, le_refl _, fun hlt => absurd hlt (lt_irrefl _), ?_⟩
    intro j hj hjl
    have h1 : (g.drop (start + 1))[j - (start + 1)]? = g[j]? := by
      rw [List.getElem?_drop]
      congr 1
      omega
    have h2 : g[j]? = some g[j] := List.getElem?_eq_getElem hjl
    have h3 : g.getD j [] = g[j] := by
      rw [List.getD_eq_getElem?_getD, h2]
      rfl
    have hmem : g[j] ∈ g.drop (start + 1) := List.getElem?_mem (h1.trans h2)
    have := hnone _ hmem
    rw [h3]
    simpa using this
  | some k =>
    have he : spanEnd g start = start + 1 + k := by unfold spanEnd; rw [hf]
    obtain ⟨hlt, hgt, hmin⟩ := findIdx?_some_spec ([] : Row) _ k hf
    rw [List.length_drop] at hlt
    have hgd : ∀ i, (g.drop (start + 1)).getD i [] = g.getD (start + 1 + i) [] := by
      intro i
      rw [List.getD_eq_getElem?_getD, List.getD_eq_getElem?_getD,
        List.getElem?_drop]
    rw [he]
    refine ⟨by omega, by omega, ?_, ?_⟩
    · intro _
      have := hgt
      rw [hgd k] at this
      exact of_decide_eq_true this
    · intro j hj hjk
      have := hmin (j - (start + 1)) (by omega)
      rw [hgd (j - (start + 1))] at this
      have heq : start + 1 + (j - (start + 1)) = j := by omega
      rw [heq] at this
      exact of_decide_eq_false this

/-! ### Amount extraction characterization -/

theorem firstNZ_some (l : List Cell) (a : ℚ) :
    (((l.filterMap toNumeric).filter fun q => decide (q ≠ 0)).head? = some a)
      ↔ ∃ l₁ c l₂, l = l₁ ++ c :: l₂ ∧ toNumeric c = some a ∧ a ≠ 0 ∧
          ∀ c' ∈ l₁, ∀ q, toNumeric c' = some q → q = 0 := by
  induction l with
  | nil =>
    simp only [List.filterMap_nil, List.filter_nil, List.head?_eq_none_iff]
    constructor
    · intro h; cases h
    · rintro ⟨l₁, c, l₂, hsplit, -, -, -⟩
      cases l₁ <;> cases hsplit
  | cons x xs ih =>
    cases hx : toNumeric x with
    | none =>
      rw [List.filterMap_cons_none hx, ih]
      constructor
      · rintro ⟨l₁, c, l₂, hsplit, hc, ha, hzero⟩
        refine ⟨x :: l₁, c, l₂, by rw [hsplit]; rfl, hc, ha, ?_⟩
        intro c' hc' q hq
        rcases List.mem_cons.mp hc' with rfl | hmem
        · rw [hx] at hq; cases hq
        · exact hzero c' hmem q hq
      · rintro ⟨l₁, c, l₂, hsplit, hc, ha, hzero⟩
        cases l₁ with
        | nil =>
          simp only [List.nil_append, List.cons.injEq] at hsplit
          rw [← hsplit.1, hx] at hc
          cases hc
        | cons y l₁ =>
          simp only [List.cons_append, List.cons.injEq] at hsplit
          refine ⟨l₁, c, l₂, hsplit.2, hc, ha, ?_⟩
          intro c' hc' q hq
          exact hzero c' (List.mem_cons_of_mem _ hc') q hq
    | some q =>
      rw [List.filterMap_cons_some hx]
      by_cases hq : q = 0
      · subst hq
        rw [List.filter_cons, if_neg (by simp)]
        rw [ih]
        constructor
        · rintro ⟨l₁, c, l₂, hsplit, hc, ha, hzero⟩
          refine ⟨x :: l₁, c, l₂, by rw [hsplit]; rfl, hc, ha, ?_⟩
          intro c' hc' q' hq'
          rcases List.mem_cons.mp hc' with rfl | hmem
          · rw [hx] at hq'; cases hq'; rfl
          · exact hzero c' hmem q' hq'
        · rintro ⟨l₁, c, l₂, hsplit, hc, ha, hzero⟩
          cases l₁ with
          | nil =>
            simp only [List.nil_append, List.cons.injEq] at hsplit
            rw [← hsplit.1, hx] at hc
            cases hc
            exact absurd rfl ha
          | cons y l₁ =>
            simp only [List.cons_append, List.cons.injEq] at hsplit
            refine ⟨l₁, c, l₂, hsplit.2, hc, ha, ?_⟩
            intro c' hc' q' hq'
            exact hzero c' (List.mem_cons_of_mem _ hc') q' hq'
      · rw [List.filter_cons, if_pos (by simpa using hq), List.head?_cons]
        constructor
        · intro h
          have hqa : q = a := by
            have := Option.some.inj h
            exact this
          subst hqa
          exact ⟨[], x, xs, rfl, hx, hq, by intro c' hc'; cases hc'⟩
        · rintro ⟨l₁, c, l₂, hsplit, hc, ha, hzero⟩
          cases l₁ with
          | nil =>
            simp only [List.nil_append, List.cons.injEq] at hsplit
            rw [← hsplit.1, hx] at hc
            exact congrArg some (Option.some.inj hc)
          | cons y l₁ =>
            simp only [List.cons_append, List.cons.injEq] at hsplit
            have := hzero x (by rw [hsplit.1]; exact List.mem_cons_self _ _) q hx
            exact absurd this hq

theorem firstNZ_none (l : List Cell) :
    (((l.filterMap toNumeric).filter fun q => decide (q ≠ 0)).head? = none)
      ↔ ∀ c ∈ l, ∀ q, toNumeric c = some q → q = 0 := by
  rw [List.head?_eq_none_iff, List.filter_eq_nil_iff]
  constructor
  · intro h c hc q hq
    by_contra hne
    exact h q (List.mem_filterMap.mpr ⟨c, hc, hq⟩) (by simpa using hne)
  · intro h q hqmem
    obtain ⟨c, hc, hcq⟩ := List.mem_filterMap.mp hqmem
    simp [h c hc q hcq]

theorem extractAmount_some_iff (row : Row) (a : ℚ) :
    extractAmount row = some a ↔
      ∃ l₁ c l₂, row.drop 2 = l₁ ++ c :: l₂ ∧ toNumeric c = some a ∧ a ≠ 0 ∧
        ∀ c' ∈ l₁, ∀ q, toNumeric c' = some q → q = 0 :=
  firstNZ_some (row.drop 2) a

theorem extractAmount_none_iff (row : Row) :
    extractAmount row = none ↔
      ∀ c ∈ row.drop 2, ∀ q, toNumeric c = some q → q = 0 :=
  firstNZ_none (row.drop 2)

theorem extractAmount_ne_zero {row : Row} {a : ℚ}
    (h : extractAmount row = some a) : a ≠ 0 := by
  obtain ⟨-, -, -, -, -, ha, -⟩ := (extractAmount_some_iff row a).mp h
  exact ha

/-! ### Summation, membership and classification lemmas -/

theorem sum_map_filter_split {α : Type} (p : α → Bool) (v : α → ℚ) (l : List α) :
    ((l.filter p).map v).sum + ((l.filter fun a => !p a).map v).sum
      = (l.map v).sum := by
  induction l with
  | nil => simp
  | cons a t ih =>
    cases h : p a with
    | true =>
      simp only [List.filter_cons, h, if_pos, Bool.not_true, if_neg,
        Bool.false_eq_true, ite_true, ite_false, List.map_cons, List.sum_cons]
      rw [add_assoc, ih]
    | false =>
      simp only [List.filter_cons, h, Bool.not_false, Bool.false_eq_true,
        ite_false, ite_true, List.map_cons, List.sum_cons]
      rw [add_left_comm, ih]

theorem sum_fiber {α κ : Type} [DecidableEq κ] (key : α → κ) (v : α → ℚ) :
    ∀ (ks : List κ) (l : List α), ks.Nodup → (∀ x ∈ l, key x ∈ ks) →
      (ks.map fun k => ((l.filter fun x => decide (key x = k)).map v).sum).sum
        = (l.map v).sum := by
  intro ks
  induction ks with
  | nil =>
    intro l _ hcov
    have hl : l = [] := by
      cases l with
      | nil => rfl
      | cons a t => exact absurd (hcov a (List.mem_cons_self _ _)) (List.not_mem_nil _)
    subst hl
    simp
  | cons k ks ih =>
    intro l hnd hcov
    have hk : k ∉ ks := (List.nodup_cons.mp hnd).1
    have hnd' : ks.Nodup := (List.nodup_cons.mp hnd).2
    have htail : ∀ k' ∈ ks,
        (l.filter fun x => decide (key x = k'))
          = (l.filter fun x => !decide (key x = k)).filter
              fun x => decide (key x = k') := by
      intro k' hk'
      rw [List.filter_filter]
      apply List.filter_congr
      intro x hx
      by_cases hxk : key x = k'
      · have hkk : ¬(k' = k) := fun e => hk (e ▸ hk')
        simp [hxk, hkk]
      · simp [hxk]
    have hcov' : ∀ x ∈ l.filter fun x => !decide (key x = k), key x ∈ ks := by
      intro x hx
      have hxl : x ∈ l := List.mem_of_mem_filter hx
      have hxk : ¬(key x = k) := by
        have := List.of_mem_filter hx
        simpa using this
      rcases List.mem_cons.mp (hcov x hxl) with h | h
      · exact absurd h hxk
      · exact h
    simp only [List.map_cons, List.sum_cons]
    have hmapeq : (ks.map fun k' => ((l.filter fun x => decide (key x = k')).map v).sum)
        = ks.map fun k' =>
            (((l.filter fun x => !decide (key x = k)).filter
              fun x => decide (key x = k')).map v).sum :=
      List.map_congr_left fun k' hk' => by rw [htail k' hk']
    rw [hmapeq, ih _ hnd' hcov']
    exact sum_map_filter_split (fun x => decide (key x = k)) v l

theorem sectionRows_subset (g : Grid) (s : ℕ) : sectionRows g s ⊆ g :=
  fun _ hx => List.drop_subset _ _ (List.take_subset _ _ hx)

theorem mem_of_sectionRowsAll {g : Grid} {t : SectionType} {row : Row}
    (h : (t, row) ∈ sectionRowsAll g) : row ∈ g := by
  unfold sectionRowsAll at h
  rcases List.mem_append.mp h with h | h <;>
  · obtain ⟨s, _, h2⟩ := List.mem_flatMap.mp h
    obtain ⟨r, hr, heq⟩ := List.mem_map.mp h2
    cases heq
    exact sectionRows_subset g s hr

theorem classifyRow_ne_invalid (t : SectionType) (row : Row) :
    classifyRow t row ≠ RowOutcome.skipInvalid := by
  unfold classifyRow
  by_cases h : hasSub (chars "rmb") (lowerS (labelOf row))
  · obtain ⟨h1, h2⟩ := rmb_label_valid (labelOf row) h
    rw [if_neg (by simpa using h)]
    rw [if_neg (by simp [h1, h2])]
    cases hext : extractAmount row <;> simp
  · rw [if_pos h]
    simp

theorem classifyRow_skipRmb {t : SectionType} {row : Row}
    (h : ¬hasSub (chars "rmb") (lowerS (labelOf row))) :
    classifyRow t row = RowOutcome.skipRmb := by
  unfold classifyRow
  rw [if_pos h]

theorem creditLimits_mem {g : Grid} {k : List Char} {v : ℚ}
    (h : (k, v) ∈ creditLimits g) :
    ∃ row ∈ creditRows g,
      hasSub (chars "rmb") (lowerS (trimS (labelOf row))) ∧
      k = trimS (subAlt (trimS (labelOf row))) ∧
      extractAmount row = some v := by
  obtain ⟨row, hrow, hentry⟩ := List.mem_filterMap.mp h
  refine ⟨row, hrow, ?_⟩
  unfold clEntry at hentry
  by_cases hrmb : hasSub (chars "rmb") (lowerS (trimS (labelOf row)))
  · rw [if_neg (by simpa using hrmb)] at hentry
    cases hext : extractAmount row with
    | none => rw [hext] at hentry; cases hentry
    | some a =>
      rw [hext] at hentry
      simp only [Option.some.injEq, Prod.mk.injEq] at hentry
      exact ⟨hrmb, hentry.1.symm, congrArg some hentry.2⟩
  · rw [if_pos hrmb] at hentry
    cases hentry

theorem lookupLast_append (m : List (List Char × ℚ)) (k : List Char) (v : ℚ) :
    lookupLast (m ++ [(k, v)]) k = some v := by
  unfold lookupLast
  rw [List.reverse_append]
  simp

/-! ### The claims -/

theorem processGrid_of_no_records (g : Grid) (b : Bool)
    (h : records (dropEmptyRows g) = []) :
    processGrid g b = RunResult.noEntries msgNoEntries (runStats (dropEmptyRows g)) := by
  unfold processGrid
  rw [if_pos h]

/-- Claim C1, corrected: the claimed per-client
`usd_equivalent = round(net_total / 7.10, 2)` is false on the code — line
164 divides the orders column, not the net, by the rate.  On the grid
producing the aggregated client with `receivables_total = 50`,
`orders_total = 0` under `only_full = false`, the client appears with
`usd_equivalent = 0`, while the claim predicts
`round((50 - 0) / 7.10, 2) = 7.04`. -/
theorem C1_counterexample :
    processGrid exGridA false = RunResult.ok
        [⟨chars "ClientA", chars "ClientA", mkRat 50 1, 0, 0, []⟩]
    ∧ roundTo2 (qdiv (qsub (mkRat 50 1) 0) exchangeRate) = mkRat 704 100
    ∧ (0 : ℚ) ≠ mkRat 704 100 := by
  decide

/-- Claim C1, amended: every aggregated client satisfies
`usd_equivalent = round(orders_total / 7.10, 2)` — the USD conversion is
taken from the orders column (line 164), not from the net. -/
theorem C1_theorem (g : Grid) (c : AggClient) (hc : c ∈ aggregate g) :
    c.usd_equivalent = roundTo2 (c.orders / exchangeRate) := by
  obtain ⟨k, hk, rfl⟩ := List.mem_map.mp hc
  show roundTo2 (qdiv (sumFor (records g) k SectionType.orders) exchangeRate) = _
  rw [qdiv_eq]
  rfl

theorem C1_witness :
    (⟨chars "ClientA", chars "ClientA", mkRat 50 1, 0, 0, []⟩ : AggClient).usd_equivalent
      = roundTo2 ((⟨chars "ClientA", chars "ClientA", mkRat 50 1, 0, 0, []⟩ : AggClient).orders
          / exchangeRate) :=
  C1_theorem exGridA _ (by decide)

/-- Claim C2, corrected: the credit-limit key keeps the words
`Credit Limit` — only the currency tags are deleted (line 132) — so the
example row records `credit_limits["ClientA  Credit Limit"] = 5000`,
`"ClientA"` is absent, and the aggregated client named `"ClientA"`
displays the empty string.  Moreover the one-pass combined regex is not
the §4.3 two-pass canonicalization: on `"r(rmb)mb"` the former leaves
`"rmb"` while the latter reaches `""`. -/
theorem C2_counterexample :
    creditLimits exGridB = [(chars "ClientA  Credit Limit", mkRat 5000 1)]
    ∧ lookupLast (creditLimits exGridB) (chars "ClientA") = none
    ∧ processGrid exGridB false = RunResult.ok
        [⟨chars "ClientA", chars "ClientA", mkRat 100 1, 0, 0, []⟩]
    ∧ trimS (subAlt (chars "r(rmb)mb")) = chars "rmb"
    ∧ trimS (removeCI (chars "rmb")
        (trimS (removeCI (chars "(rmb)") (trimS (chars "r(rmb)mb"))))) = []
    ∧ chars "ClientA  Credit Limit" ≠ chars "ClientA" := by
  decide

/-- Claim C2, amended: every recorded credit limit comes from a row with
a `credit limit` cell whose stripped label contains `rmb`; its key is the
stripped label cleaned by the one-pass combined regex (tags deleted, the
`Credit Limit` words kept), and its value is the first non-zero coerced
amount of that row. -/
theorem C2_theorem (g : Grid) (name : List Char) (v : ℚ)
    (h : lookupLast (creditLimits g) name = some v) :
    ∃ row ∈ creditRows g,
      hasSub (chars "rmb") (lowerS (trimS (labelOf row)))
      ∧ name = trimS (subAlt (trimS (labelOf row)))
      ∧ extractAmount row = some v := by
  unfold lookupLast at h
  cases hfind : (creditLimits g).reverse.find? fun p => decide (p.1 = name) with
  | none => rw [hfind] at h; cases h
  | some p =>
    rw [hfind] at h
    simp only [Option.map_some'] at h
    have hname : p.1 = name := by
      have := List.find?_some hfind
      simpa using this
    have hmem : p ∈ creditLimits g :=
      List.mem_reverse.mp (List.mem_of_find?_eq_some hfind)
    have hp : (p.1, p.2) = p := rfl
    rw [← hname]
    have hv : p.2 = v := by
      cases h
      rfl
    rw [← hv]
    exact creditLimits_mem (by rw [hp]; exact hmem)

theorem C2_witness :
    ∃ row ∈ creditRows exGridB,
      hasSub (chars "rmb") (lowerS (trimS (labelOf row)))
      ∧ chars "ClientA  Credit Limit" = trimS (subAlt (trimS (labelOf row)))
      ∧ extractAmount row = some (mkRat 5000 1) :=
  C2_theorem exGridB (chars "ClientA  Credit Limit") (mkRat 5000 1) (by decide)

/-- Claim C3, corrected: `client_id` and `client_name` are not the same
canonicalized string — `client_id` only deletes the parenthesized tag
(line 89), so the label `"ClientA RMB"` yields
`client_id = "ClientA RMB" ≠ client_name = "ClientA"`, and `client_id`
still contains `"rmb"`.  Even `client_name` can contain `"rmb"`: a
single deletion pass over `"rrmbmb"` leaves `"rmb"`. -/
theorem C3_counterexample :
    classifyRow SectionType.receivables exRowBare
        = RowOutcome.keep ⟨chars "ClientA RMB", chars "ClientA",
            chars "240601", mkRat 100 1, SectionType.receivables⟩
    ∧ chars "ClientA RMB" ≠ chars "ClientA"
    ∧ hasSub (chars "rmb") (lowerS (chars "ClientA RMB"))
    ∧ classifyRow SectionType.receivables exRowTricky
        = RowOutcome.keep ⟨chars "rrmbmb", chars "rmb",
            chars "240601", mkRat 1 1, SectionType.receivables⟩
    ∧ hasSub (chars "rmb") (lowerS (chars "rmb")) := by
  decide

/-- Claim C3, amended: for every produced `ClientRecord`, `client_id` is
the stripped label with the parenthesized `(rmb)` tag deleted, and
`client_name` is `client_id` with the bare `rmb` token deleted; the two
coincide only when the id contains no bare tag, and neither is
guaranteed free of `"rmb"`. -/
theorem C3_theorem (t : SectionType) (row : Row) (r : ClientRecord)
    (h : classifyRow t row = RowOutcome.keep r) :
    r.client_id = trimS (removeCI (chars "(rmb)") (trimS (labelOf row)))
    ∧ r.client_name = trimS (removeCI (chars "rmb") r.client_id) := by
  unfold classifyRow at h
  by_cases h1 : hasSub (chars "rmb") (lowerS (labelOf row))
  · rw [if_neg (not_not_intro h1)] at h
    by_cases h2 : trimS (labelOf row) = [] ∨ lowerS (trimS (labelOf row)) = chars "nan"
    · rw [if_pos h2] at h
      cases h
    · rw [if_neg h2] at h
      cases hext : extractAmount row with
      | none => rw [hext] at h; cases h
      | some a =>
        rw [hext] at h
        cases h
        exact ⟨rfl, rfl⟩
  · rw [if_pos h1] at h
    cases h

theorem C3_witness :
    (⟨chars "ClientA RMB", chars "ClientA", chars "240601", mkRat 100 1,
        SectionType.receivables⟩ : ClientRecord).client_id
      = trimS (removeCI (chars "(rmb)") (trimS (labelOf exRowBare)))
    ∧ (⟨chars "ClientA RMB", chars "ClientA", chars "240601", mkRat 100 1,
        SectionType.receivables⟩ : ClientRecord).client_name
      = trimS (removeCI (chars "rmb")
          (⟨chars "ClientA RMB", chars "ClientA", chars "240601", mkRat 100 1,
            SectionType.receivables⟩ : ClientRecord).client_id) :=
  C3_theorem SectionType.receivables exRowBare _ (by decide)

/-- Claim C4, corrected: the coercion is a plain `pd.to_numeric` — it
does not strip thousands separators, parentheses, or other foreign
characters, so the cell `"1,000"` fails coercion and the row reports
"no amount", while the cleaning the claim describes would accept it as
`1000`. -/
theorem C4_counterexample :
    extractAmount exRowComma = none
    ∧ toNumeric (Cell.str (chars "1,000")) = none
    ∧ specCoerce (chars "1,000") = some (mkRat 1000 1) := by
  decide

/-- Claim C4, amended: from column index 2 on, each cell is coerced by
plain numeric parsing (surrounding whitespace only); the amount is the
first cell that coerces to a non-zero value, all cells failing coercion
or coercing to zero being discarded, and "no amount" is reported exactly
when every cell fails or is zero. -/
theorem C4_theorem :
    (∀ (row : Row) (a : ℚ), extractAmount row = some a ↔
      ∃ l₁ c l₂, row.drop 2 = l₁ ++ c :: l₂ ∧ toNumeric c = some a ∧ a ≠ 0 ∧
        ∀ c' ∈ l₁, ∀ q, toNumeric c' = some q → q = 0)
    ∧ ∀ row : Row, extractAmount row = none ↔
        ∀ c ∈ row.drop 2, ∀ q, toNumeric c = some q → q = 0 :=
  ⟨extractAmount_some_iff, extractAmount_none_iff⟩

theorem C4_witness : extractAmount exRowZeroFirst = some (mkRat 7 1) :=
  (C4_theorem.1 exRowZeroFirst (mkRat 7 1)).mpr
    ⟨[Cell.str (chars "0")], Cell.num (mkRat 7 1), [], by decide, by decide,
      by decide, by
        intro c' hc' q hq
        have hc0 : c' = Cell.str (chars "0") := by simpa using hc'
        subst hc0
        have hzero : toNumeric (Cell.str (chars "0")) = some 0 := by decide
        rw [hzero] at hq
        exact (Option.some.inj hq).symm⟩

/-- Claim C5, confirmed: for every section marker, the computed span end
is the first row strictly after the marker whose joined normalized text
contains a section code (exclusive), or the grid length when none
exists; hence `start ≤ end ≤ length`. -/
theorem C5_theorem (g : Grid) (start : ℕ)
    (h : start ∈ markerIdxs g receivablesCode ∨ start ∈ markerIdxs g ordersCode) :
    start ≤ spanEnd g start ∧ spanEnd g start ≤ g.length
    ∧ (spanEnd g start < g.length → rowHasAnyCode (g.getD (spanEnd g start) []))
    ∧ ∀ j, start < j → j < spanEnd g start → ¬rowHasAnyCode (g.getD j []) := by
  have hlt : start < g.length := by
    rcases h with h | h <;>
      exact List.mem_range.mp (List.mem_filter.mp h).1
  exact spanEnd_spec g start hlt

theorem C5_witness :
    0 ≤ spanEnd exGridA 0 ∧ spanEnd exGridA 0 ≤ exGridA.length :=
  ⟨(C5_theorem exGridA 0 (Or.inl (by decide))).1,
   (C5_theorem exGridA 0 (Or.inl (by decide))).2.1⟩

/-- Claim C6, corrected: a credit limit is recorded whenever the first
surviving coerced value is non-zero — the value may be negative, as the
row with amount `-500` shows; the claimed positivity is not checked. -/
theorem C6_counterexample :
    creditLimits exGridC = [(chars "X  credit limit", mkRat (-500) 1)]
    ∧ mkRat (-500) 1 < 0 := by
  decide

/-- Claim C6, amended: every recorded credit limit is non-zero (not
necessarily positive), and on duplicate names the last write wins. -/
theorem C6_theorem :
    (∀ (g : Grid) (k : List Char) (v : ℚ), (k, v) ∈ creditLimits g → v ≠ 0)
    ∧ ∀ (m : List (List Char × ℚ)) (k : List Char) (v : ℚ),
        lookupLast (m ++ [(k, v)]) k = some v := by
  constructor
  · intro g k v h
    obtain ⟨row, -, -, -, hext⟩ := creditLimits_mem h
    exact extractAmount_ne_zero hext
  · exact lookupLast_append

theorem C6_witness :
    mkRat (-500) 1 ≠ 0
    ∧ lookupLast ([(chars "b", mkRat 2 1)] ++ [(chars "a", mkRat 1 1)])
        (chars "a") = some (mkRat 1 1) :=
  ⟨C6_theorem.1 exGridC (chars "X  credit limit") (mkRat (-500) 1) (by decide),
   C6_theorem.2 [(chars "b", mkRat 2 1)] (chars "a") (mkRat 1 1)⟩

/-- Claim C7, confirmed: require-both keeps exactly the clients with
both totals positive, require-either those with a non-zero total, and an
empty filtered set is reported with a distinct message naming the active
mode. -/
theorem C7_theorem :
    (∀ (cs : List AggClient) (c : AggClient),
      c ∈ filterClients true cs ↔ c ∈ cs ∧ 0 < c.receivables ∧ 0 < c.orders)
    ∧ (∀ (cs : List AggClient) (c : AggClient),
        c ∈ filterClients false cs ↔ c ∈ cs ∧ (c.receivables ≠ 0 ∨ c.orders ≠ 0))
    ∧ (∀ (g : Grid) (b : Bool), records (dropEmptyRows g) ≠ [] →
        filterClients b (aggregate (dropEmptyRows g)) = [] →
        processGrid g b = RunResult.emptyAfterFilter (if b then msgBoth else msgEither))
    ∧ msgBoth ≠ msgEither := by
  refine ⟨?_, ?_, ?_, by decide⟩
  · intro cs c
    simp [filterClients, List.mem_filter]
  · intro cs c
    simp [filterClients, List.mem_filter]
  · intro g b h1 h2
    unfold processGrid
    rw [if_neg h1]
    simp only
    rw [if_pos h2]

theorem C7_witness : processGrid exGridA true = RunResult.emptyAfterFilter msgBoth := by
  have h := C7_theorem.2.2.1 exGridA true (by decide) (by decide)
  simpa using h

/-- Claim C8, confirmed: a run with zero client records fails with the
distinct no-entries error carrying the accumulated counters; on a grid
whose labels nowhere contain `"rmb"` every scanned section row is
counted under `no_rmb` and the run reports exactly that failure. -/
theorem C8_theorem :
    (∀ (g : Grid) (b : Bool), records (dropEmptyRows g) = [] →
      processGrid g b = RunResult.noEntries msgNoEntries (runStats (dropEmptyRows g)))
    ∧ ∀ (g : Grid) (b : Bool),
        (∀ row ∈ g, ¬hasSub (chars "rmb") (lowerS (labelOf row))) →
        processGrid g b = RunResult.noEntries msgNoEntries (runStats (dropEmptyRows g))
        ∧ (runStats (dropEmptyRows g)).no_rmb = (sectionRowsAll (dropEmptyRows g)).length
        ∧ (runStats (dropEmptyRows g)).no_amount = 0
        ∧ (runStats (dropEmptyRows g)).invalid_client = 0 := by
  refine ⟨processGrid_of_no_records, ?_⟩
  intro g b h
  have hall : ∀ p ∈ sectionRowsAll (dropEmptyRows g),
      classifyRow p.1 p.2 = RowOutcome.skipRmb := by
    rintro ⟨t, row⟩ hp
    have hrow : row ∈ dropEmptyRows g := mem_of_sectionRowsAll hp
    exact classifyRow_skipRmb (h row (List.mem_of_mem_filter hrow))
  have houts : ∀ o ∈ rowOutcomes (dropEmptyRows g), o = RowOutcome.skipRmb := by
    intro o ho
    obtain ⟨p, hp, rfl⟩ := List.mem_map.mp ho
    exact hall p hp
  have hrec : records (dropEmptyRows g) = [] := by
    unfold records
    apply List.filterMap_eq_nil_iff.mpr
    intro o ho
    rw [houts o ho]
  refine ⟨processGrid_of_no_records g b hrec, ?_, ?_, ?_⟩
  · have hcnt : (rowOutcomes (dropEmptyRows g)).countP
        (fun o => decide (o = RowOutcome.skipRmb))
        = (rowOutcomes (dropEmptyRows g)).length :=
      List.countP_eq_length.mpr fun o ho => by simp [houts o ho]
    show (rowOutcomes (dropEmptyRows g)).countP _ = _
    rw [hcnt]
    unfold rowOutcomes
    rw [List.length_map]
  · apply List.countP_eq_zero.mpr
    intro o ho
    rw [houts o ho]
    decide
  · apply List.countP_eq_zero.mpr
    intro o ho
    rw [houts o ho]
    decide

theorem C8_witness :
    processGrid exGridD true
      = RunResult.noEntries msgNoEntries (runStats (dropEmptyRows exGridD))
    ∧ (runStats (dropEmptyRows exGridD)).no_rmb
        = (sectionRowsAll (dropEmptyRows exGridD)).length :=
  ⟨(C8_theorem.2 exGridD true (by decide)).1,
   (C8_theorem.2 exGridD true (by decide)).2.1⟩

/-- Claim C9, confirmed: summing `receivables_total` over the pre-filter
aggregated clients gives the sum of the amounts of all receivables
records, and likewise for orders. -/
theorem C9_theorem (g : Grid) :
    (((aggregate g).map fun c => c.receivables).sum
      = (((records g).filter fun r => decide (r.stype = SectionType.receivables)).map
          fun r => r.amount).sum)
    ∧ ((aggregate g).map fun c => c.orders).sum
      = (((records g).filter fun r => decide (r.stype = SectionType.orders)).map
          fun r => r.amount).sum := by
  constructor
  · have h1 : ((aggregate g).map fun c => c.receivables)
        = (aggKeys (records g)).map fun k => sumFor (records g) k SectionType.receivables := by
      unfold aggregate
      rw [List.map_map]
      rfl
    rw [h1, List.map_congr_left (fun k _ => by
      unfold sumFor
      rw [qsum_eq])]
    exact sum_fiber keyOf (fun r => r.amount) (aggKeys (records g)) _
      (List.nodup_dedup _)
      (fun x hx => List.mem_dedup.mpr
        (List.mem_map_of_mem keyOf (List.mem_of_mem_filter hx)))
  · have h1 : ((aggregate g).map fun c => c.orders)
        = (aggKeys (records g)).map fun k => sumFor (records g) k SectionType.orders := by
      unfold aggregate
      rw [List.map_map]
      rfl
    rw [h1, List.map_congr_left (fun k _ => by
      unfold sumFor
      rw [qsum_eq])]
    exact sum_fiber keyOf (fun r => r.amount) (aggKeys (records g)) _
      (List.nodup_dedup _)
      (fun x hx => List.mem_dedup.mpr
        (List.mem_map_of_mem keyOf (List.mem_of_mem_filter hx)))

/-- Claim C10, confirmed: the `"rmb"` test runs before the
empty/`"nan"` test, a section row with an empty or `"nan"` label is
counted under `no_rmb`, and `invalid_client` is `0` at the end of every
run — a label containing `"rmb"` can strip neither to the empty string
nor to `"nan"`. -/
theorem C10_theorem :
    (∀ g : Grid, (runStats g).invalid_client = 0)
    ∧ ∀ (g : Grid) (t : SectionType) (row : Row),
        (t, row) ∈ sectionRowsAll g →
        (trimS (labelOf row) = [] ∨ lowerS (trimS (labelOf row)) = chars "nan") →
        classifyRow t row = RowOutcome.skipRmb := by
  constructor
  · intro g
    apply List.countP_eq_zero.mpr
    intro o ho
    obtain ⟨p, hp, rfl⟩ := List.mem_map.mp ho
    simpa using classifyRow_ne_invalid p.1 p.2
  · intro g t row hmem hbad
    refine classifyRow_skipRmb ?_
    intro habs
    obtain ⟨h1, h2⟩ := rmb_label_valid (labelOf row) habs
    rcases hbad with hb | hb
    · exact h1 hb
    · exact h2 hb

theorem C10_witness :
    classifyRow SectionType.receivables [Cell.str (chars ""), Cell.str (chars "  ")]
      = RowOutcome.skipRmb :=
  C10_theorem.2 exGridE SectionType.receivables _ (by decide) (Or.inl (by decide))

end Titus
